import Mathlib

/-!
Verification development for the ConTest `TestRunner` (pkg/runner/test_runner.go).

The Go sources are shallowly embedded: the sequential phases of
`TestRunner.Run` become executable Lean functions, and the concurrent
target handler (`handleTarget`) becomes a per-target loop driven by an
oracle list of scheduler events plus a mutation relation listing the
handler's writes to `(CurStep, CurPhase)`.

Conventions used throughout:
- Go `json.RawMessage` / `[]byte` is modelled as `String`; the empty
  string models a nil / empty byte slice.
- Go `error` values attached to a single target are opaque messages
  (`GoErr`); run-level errors are the inductive `RErr`, with dedicated
  constructors for the sentinels `xcontext.ErrPaused` and
  `xcontext.ErrCanceled` and for `cerrors.ErrTestStepsNeverReturned`.
- Go maps keyed by target ID are association lists with a first-match
  lookup (`alookup`); Go map-assignment is `insertTS` (replace or
  append) and in-place mutation through a map-held pointer is
  `updateTS` (replace only).
- A Go runtime panic (index out of range, nil pointer dereference) is
  the explicit error type `GoPanic`, returned through `Except`.
-/

/-- Opaque per-target Go `error` (as carried in `targetState.Res`). -/
abbrev GoErr := String

/-- `json.RawMessage`; the empty string models nil / empty bytes. -/
abbrev RawMessage := String

/-- Go runtime panics that the embedding makes explicit. -/
inductive GoPanic
  | indexOutOfRange (idx len : Nat)
  | nilDeref
deriving DecidableEq, Repr

/-- Run-level errors (`error` values compared against the sentinels
`xcontext.ErrPaused` / `xcontext.ErrCanceled` in test_runner.go). -/
inductive RErr
  | paused
  | canceled
  | neverReturned (stepNames : List String)
  | other (msg : String)
deriving DecidableEq, Repr

/-- `targetStepPhase` from test_runner.go lines 52-61, same constructor
order as the Go iota (invalid = 0 .. end = 5). -/
inductive TargetStepPhase
  | invalid
  | init
  | begin_
  | run
  | obsolete
  | end_
deriving DecidableEq, Repr

/-- Numeric value of a phase, matching the Go iota. -/
def phaseIdx : TargetStepPhase → Nat
  | .invalid => 0
  | .init => 1
  | .begin_ => 2
  | .run => 3
  | .obsolete => 4
  | .end_ => 5

/-- `target.Target`, reduced to the identifier the runner keys on. -/
structure Target where
  ID : String
deriving DecidableEq, Repr

/-- `StepsVariables` content for one target: step label to raw JSON,
kept opaque (the runner never interprets the values). -/
abbrev StepsVars := List (String × String)

/-- `targetState` from test_runner.go lines 67-75.  `tgt` is the
transient live-target pointer; `none` models a nil pointer.  Defaults
are the Go zero values (`CurPhase` zero value is `invalid`). -/
structure TargetState where
  tgt : Option Target := none
  CurStep : Nat := 0
  CurPhase : TargetStepPhase := .invalid
  Res : Option GoErr := none
  StepsVariables : StepsVars := []
deriving DecidableEq, Repr

/-- `resumeStateStruct` from test_runner.go lines 78-82.  `Targets` is
the deserialized map; entries carry `tgt = none` because the live
pointer is not serialized. -/
structure ResumeStateStruct where
  Version : Int
  Targets : List (String × TargetState)
  StepResumeState : List RawMessage
deriving DecidableEq, Repr

/-- `resumeStateStructVersion` (test_runner.go line 87). -/
def resumeStateStructVersion : Int := 2

/-- First-match association-list lookup; the embedding of reading a Go
map keyed by target ID. -/
def alookup {β : Type} : List (String × β) → String → Option β
  | [], _ => none
  | p :: rest, id => if p.1 = id then some p.2 else alookup rest id

/-- Go map assignment `m[id] = ts`: replace the existing entry or
append a new one. -/
def insertTS (states : List (String × TargetState)) (id : String) (ts : TargetState) :
    List (String × TargetState) :=
  if (alookup states id).isSome then
    states.map (fun p => if p.1 = id then (p.1, ts) else p)
  else
    states ++ [(id, ts)]

/-- In-place mutation of the `targetState` a Go map entry points to
(the map holds `*targetState`); only replaces an existing entry. -/
def updateTS (states : List (String × TargetState)) (id : String) (ts : TargetState) :
    List (String × TargetState) :=
  states.map (fun p => if p.1 = id then (p.1, ts) else p)

/-- Resume-state parsing prefix of `Run` (test_runner.go lines
107-119).  `unmarshal` stands for `json.Unmarshal` into
`resumeStateStruct`: it is a parameter because JSON decoding itself
lives outside the runner.  On success returns the deserialized target
states (if any) and the per-step resume blobs. -/
def runParseResume (unmarshal : RawMessage → Except String ResumeStateStruct)
    (resumeState : RawMessage) :
    Except String (Option (List (String × TargetState)) × List RawMessage) :=
  if resumeState.length > 0 then
    match unmarshal resumeState with
    | .error e => .error ("invalid resume state: " ++ e)
    | .ok rs =>
      if rs.Version ≠ resumeStateStructVersion then
        .error ("incompatible resume state version " ++ toString rs.Version ++
          " (want " ++ toString resumeStateStructVersion ++ ")")
      else
        .ok (some rs.Targets, rs.StepResumeState)
  else
    .ok (none, [])

/-- The whole of `Run` seen from the parse phase: a parse failure
returns `(nil, nil, err)` immediately (lines 112, 115-116), before any
pipeline step is constructed or started; `rest` stands for everything
`Run` does after a successful parse and is never consulted on the
failure paths. -/
def runFromParse {α : Type} (unmarshal : RawMessage → Except String ResumeStateStruct)
    (resumeState : RawMessage)
    (rest : Option (List (String × TargetState)) → List RawMessage →
      RawMessage × Option α × Option String) :
    RawMessage × Option α × Option String :=
  match runParseResume unmarshal resumeState with
  | .error e => ("", none, some e)
  | .ok (ts, srs) => rest ts srs

/-- CLAIM C6: calling `Run` with a non-empty resume snapshot that does
not unmarshal returns nil snapshot, nil results and an error whose text
starts with (hence contains) "invalid resume state"; a snapshot whose
parsed `Version` differs from 2 likewise fails with an error containing
"incompatible resume state"; in both cases the rest of `Run` (pipeline
construction and step startup) is never reached, whatever it would have
done. -/
theorem c6_resume_parse_failures {α : Type}
    (unmarshal : RawMessage → Except String ResumeStateStruct)
    (resumeState : RawMessage)
    (rest : Option (List (String × TargetState)) → List RawMessage →
      RawMessage × Option α × Option String)
    (hne : resumeState.length > 0) :
    (∀ m, unmarshal resumeState = .error m →
      runFromParse unmarshal resumeState rest =
        ("", none, some ("invalid resume state: " ++ m))) ∧
    (∀ rs, unmarshal resumeState = .ok rs → rs.Version ≠ resumeStateStructVersion →
      runFromParse unmarshal resumeState rest =
        ("", none, some ("incompatible resume state version " ++ toString rs.Version ++
          " (want " ++ toString resumeStateStructVersion ++ ")"))) := by
  constructor
  · intro m hm
    simp [runFromParse, runParseResume, hne, hm]
  · intro rs hrs hv
    simp [runFromParse, runParseResume, hne, hrs, hv]

/-- Witness for C6 at concrete inputs: a failing unmarshal and a
version-3 snapshot both short-circuit with the expected messages. -/
theorem c6_resume_parse_failures_witness :
    ("bad".length > 0 ∧
      runFromParse (α := Unit) (fun _ => .error "oops") "bad" (fun _ _ => ("", none, none)) =
        ("", none, some "invalid resume state: oops")) ∧
    ("v3snap".length > 0 ∧
      runFromParse (α := Unit) (fun _ => .ok ⟨3, [], []⟩) "v3snap" (fun _ _ => ("", none, none)) =
        ("", none, some "incompatible resume state version 3 (want 2)")) := by
  refine ⟨⟨by decide, ?_⟩, ⟨by decide, ?_⟩⟩
  · exact (c6_resume_parse_failures (α := Unit) (fun _ => .error "oops") "bad"
      (fun _ _ => ("", none, none)) (by decide)).1 "oops" rfl
  · exact (c6_resume_parse_failures (α := Unit) (fun _ => .ok ⟨3, [], []⟩) "v3snap"
      (fun _ _ => ("", none, none)) (by decide)).2 ⟨3, [], []⟩ rfl (by decide)

/-- Body of the target-seeding loop of `Run` (test_runner.go lines
128-137): keep the snapshot entry for this target's ID or create a
fresh state in phase `init`, set the live-target pointer, and store the
entry back in the map. -/
def seedOne (acc : List (String × TargetState)) (tgt : Target) :
    List (String × TargetState) :=
  let tgs := match alookup acc tgt.ID with
    | none => { CurPhase := .init : TargetState }
    | some t => t
  insertTS acc tgt.ID { tgs with tgt := some tgt }

/-- Target-state seeding from `Run` (test_runner.go lines 121-137):
start from the deserialized snapshot states (or an empty map) and run
the seeding loop over the supplied targets. -/
def seedTargetStates (targetStates0 : Option (List (String × TargetState)))
    (targets : List Target) : List (String × TargetState) :=
  targets.foldl seedOne (targetStates0.getD [])

/-- The IDs for which `Run` spawns a target handler: the loop at lines
180-193 iterates over every entry of `targetStates`. -/
def spawnedHandlers (states : List (String × TargetState)) : List String :=
  states.map Prod.fst

/-- First action of `handleTarget` on its state (test_runner.go line
350): `ctx.WithField("target", tgs.tgt.ID)` dereferences the
live-target pointer; on a nil pointer this is a Go runtime panic. -/
def handleTargetStart (tgs : TargetState) : Except GoPanic String :=
  match tgs.tgt with
  | none => .error .nilDeref
  | some t => .ok t.ID

theorem alookup_replace {β : Type} (l : List (String × β)) (k : String) (v : β)
    (id : String) :
    alookup (l.map (fun p => if p.1 = k then (p.1, v) else p)) id =
      if k = id then (alookup l id).map (fun _ => v) else alookup l id := by
  induction l with
  | nil => by_cases h : k = id <;> simp [alookup, h]
  | cons p rest ih =>
    by_cases hpk : p.1 = k
    · by_cases hpid : p.1 = id
      · have hkid : k = id := hpk ▸ hpid
        simp [alookup, hpk, hpid, hkid]
      · have hkid : ¬(k = id) := fun h => hpid (hpk ▸ h ▸ rfl)
        simp only [List.map, hpk, if_true, alookup, hpid, if_false, hkid]
        simpa [hkid] using ih
    · by_cases hpid : p.1 = id
      · have hkid : ¬(k = id) := fun h => hpk (hpid ▸ h ▸ rfl)
        have hidk : ¬(id = k) := fun h => hkid h.symm
        simp [alookup, hpk, hpid, hkid, hidk]
      · simp only [List.map, hpk, if_false, alookup, hpid]
        exact ih

theorem alookup_append {β : Type} (l1 l2 : List (String × β)) (id : String) :
    alookup (l1 ++ l2) id =
      match alookup l1 id with
      | some v => some v
      | none => alookup l2 id := by
  induction l1 with
  | nil => simp [alookup]
  | cons p rest ih =>
    by_cases hpid : p.1 = id
    · simp [alookup, hpid]
    · simpa [alookup, hpid] using ih

theorem alookup_insertTS (states : List (String × TargetState)) (k : String)
    (v : TargetState) (id : String) :
    alookup (insertTS states k v) id = if k = id then some v else alookup states id := by
  unfold insertTS
  by_cases hk : (alookup states k).isSome
  · rw [if_pos hk, alookup_replace]
    by_cases hkid : k = id
    · subst hkid
      obtain ⟨w, hw⟩ := Option.isSome_iff_exists.mp hk
      simp [hw]
    · simp [hkid]
  · rw [if_neg hk, alookup_append]
    by_cases hkid : k = id
    · subst hkid
      have : alookup states k = none := by
        cases h : alookup states k with
        | none => rfl
        | some w => rw [h] at hk; simp at hk
      simp [this, alookup]
    · cases h : alookup states id with
      | none => simp [alookup, fun hh => hkid hh, hkid]
      | some w => simp [hkid]

theorem alookup_updateTS (states : List (String × TargetState)) (k : String)
    (v : TargetState) (id : String) :
    alookup (updateTS states k v) id =
      if k = id then (alookup states id).map (fun _ => v) else alookup states id := by
  unfold updateTS
  exact alookup_replace states k v id

theorem alookup_mem_keys {β : Type} (states : List (String × β)) (id : String)
    (v : β) (h : alookup states id = some v) : id ∈ states.map Prod.fst := by
  induction states with
  | nil => simp [alookup] at h
  | cons p rest ih =>
    by_cases hp : p.1 = id
    · simp [hp]
    · simp only [alookup, hp, if_false] at h
      simp [ih h]

theorem alookup_seedOne_ne (acc : List (String × TargetState)) (tgt : Target)
    (id : String) (hne : tgt.ID ≠ id) :
    alookup (seedOne acc tgt) id = alookup acc id := by
  simp only [seedOne]
  rw [alookup_insertTS]
  simp [hne]

theorem seedTargetStates_foreign (snap : List (String × TargetState))
    (targets : List Target) (id : String) (hnot : ∀ t ∈ targets, t.ID ≠ id) :
    alookup (seedTargetStates (some snap) targets) id = alookup snap id := by
  unfold seedTargetStates
  simp only [Option.getD]
  induction targets generalizing snap with
  | nil => rfl
  | cons t rest ih =>
    simp only [List.foldl]
    rw [ih _ (fun u hu => hnot u (List.mem_cons_of_mem _ hu))]
    exact alookup_seedOne_ne snap t id (hnot t (List.mem_cons_self _ _))

/-- CLAIM C10: if the resume snapshot carries a target state whose ID is
absent from the supplied targets list (pointer field nil, as
deserialization leaves it), `Run` keeps that entry untouched in the
state map, spawns a target handler for it all the same, and that
handler's first action dereferences the nil live-target pointer — a Go
nil-pointer panic; no validation excludes snapshot-only IDs. -/
theorem c10_foreign_snapshot_target (snap : List (String × TargetState))
    (targets : List Target) (id : String) (st : TargetState)
    (hsnap : alookup snap id = some st) (htgt : st.tgt = none)
    (hnot : ∀ t ∈ targets, t.ID ≠ id) :
    alookup (seedTargetStates (some snap) targets) id = some st ∧
    id ∈ spawnedHandlers (seedTargetStates (some snap) targets) ∧
    handleTargetStart st = .error .nilDeref := by
  have hl : alookup (seedTargetStates (some snap) targets) id = some st :=
    (seedTargetStates_foreign snap targets id hnot).trans hsnap
  refine ⟨hl, alookup_mem_keys _ _ _ hl, ?_⟩
  simp [handleTargetStart, htgt]

/-- Witness for C10: a version-2 snapshot containing a state for
"ghost" resumed with targets `[T1]` leaves the ghost entry with a nil
pointer, spawns a handler for it, and that handler hits the nil
dereference. -/
theorem c10_foreign_snapshot_target_witness :
    (alookup [("ghost", ({ CurStep := 0, CurPhase := .run } : TargetState))] "ghost" =
        some { CurStep := 0, CurPhase := .run } ∧
      ({ CurStep := 0, CurPhase := .run } : TargetState).tgt = none ∧
      ∀ t ∈ [({ ID := "T1" } : Target)], t.ID ≠ "ghost") ∧
    (alookup (seedTargetStates (some [("ghost", { CurStep := 0, CurPhase := .run })])
        [{ ID := "T1" }]) "ghost" = some { CurStep := 0, CurPhase := .run } ∧
      "ghost" ∈ spawnedHandlers (seedTargetStates
        (some [("ghost", { CurStep := 0, CurPhase := .run })]) [{ ID := "T1" }]) ∧
      handleTargetStart { CurStep := 0, CurPhase := .run } = .error .nilDeref) := by
  refine ⟨⟨by decide, by decide, by decide⟩, ?_⟩
  exact c10_foreign_snapshot_target _ _ _ _ (by decide) (by decide) (by decide)

/-- Lexicographic progress order on a target's `(CurStep, CurPhase)`
pair, phases ordered by their Go iota value. -/
def posLt (a b : Nat × TargetStepPhase) : Prop :=
  a.1 < b.1 ∨ (a.1 = b.1 ∧ phaseIdx a.2 < phaseIdx b.2)

/-- Every write `handleTarget` performs on a targetState's
`(CurStep, CurPhase)` pair (test_runner.go lines 353-451), with the
phase the state can hold at that write site:
- `initToBegin`: line 370, the phase switch case for `init`;
- `beginToRun`: lines 399-401, after a successful injection, guarded by
  the explicit `CurPhase == targetStepPhaseBegin` check;
- `beginToEnd` / `runToEnd`: line 418, the unconditional
  `CurPhase = targetStepPhaseEnd` after a result arrives (at that point
  the phase is `begin` or `run`);
- `advance`: lines 445-449 reached from the result branch, which set
  the phase to `end` at line 418: `i++` then `CurStep = i,
  CurPhase = init`, taken only when `Res` is unset and `i` is still
  inside the pipeline;
- `advanceFromRun`: the same lines 445-449 write reached from the
  `NotifyStopped` branch when `ss.GetError()` returns nil (lines
  421-423): nothing on that path writes `end`, so the state still
  holds phase `run` (set at lines 399-401) when it advances to the
  next step. -/
inductive handlerMut : Nat × TargetStepPhase → Nat × TargetStepPhase → Prop
  | initToBegin (i : Nat) : handlerMut (i, .init) (i, .begin_)
  | beginToRun (i : Nat) : handlerMut (i, .begin_) (i, .run)
  | beginToEnd (i : Nat) : handlerMut (i, .begin_) (i, .end_)
  | runToEnd (i : Nat) : handlerMut (i, .run) (i, .end_)
  | advance (i : Nat) : handlerMut (i, .end_) (i + 1, .init)
  | advanceFromRun (i : Nat) : handlerMut (i, .run) (i + 1, .init)

/-- The mutation order the claim allows, following the spec's words
("advances only in the order init → begin → run → end, possibly
jumping from end at step i to init at step i+1"): phase steps within a
step, and a jump to the next step's init from `end` only. Defined for
comparison with `handlerMut`, the enumeration taken from the source. -/
inductive specPhaseOrder : Nat × TargetStepPhase → Nat × TargetStepPhase → Prop
  | initToBegin (i : Nat) : specPhaseOrder (i, .init) (i, .begin_)
  | beginToRun (i : Nat) : specPhaseOrder (i, .begin_) (i, .run)
  | runToEnd (i : Nat) : specPhaseOrder (i, .run) (i, .end_)
  | endToNextInit (i : Nat) : specPhaseOrder (i, .end_) (i + 1, .init)

/-- CLAIM C4 (amended): every mutation of `(CurStep, CurPhase)` made
by the target handler moves the pair strictly forward in the
lexicographic order (step, then init < begin < run < end) — it never
regresses; within a step the phase only advances init → begin → run →
end, but the jump to (i+1, init) can occur from phase `run` as well as
from `end`: when the step stops with a nil error while the target
awaits its result (lines 421-423 falling through to 445-449), the
handler advances without ever writing `end`. -/
theorem c4_phase_monotonic (s t : Nat × TargetStepPhase) (h : handlerMut s t) :
    posLt s t := by
  cases h with
  | initToBegin i => exact Or.inr ⟨rfl, by simp [phaseIdx]⟩
  | beginToRun i => exact Or.inr ⟨rfl, by simp [phaseIdx]⟩
  | beginToEnd i => exact Or.inr ⟨rfl, by simp [phaseIdx]⟩
  | runToEnd i => exact Or.inr ⟨rfl, by simp [phaseIdx]⟩
  | advance i => exact Or.inl (Nat.lt_succ_self i)
  | advanceFromRun i => exact Or.inl (Nat.lt_succ_self i)

/-- Witness for the amended C4: the line-370 mutation at step 0 is a
strict forward move. -/
theorem c4_phase_monotonic_witness :
    handlerMut (0, .init) (0, .begin_) ∧ posLt (0, .init) (0, .begin_) :=
  ⟨handlerMut.initToBegin 0, c4_phase_monotonic _ _ (handlerMut.initToBegin 0)⟩

/-- Scheduler events driving one iteration of the `handleTarget` loop;
each constructor names the concurrent outcome the iteration observes:
- `earlyBreak`: the pause/cancel select at lines 356-364 fires;
- `runFail e`: `ss.Run` or `ss.InjectTarget` returns error `e`
  (lines 387-394);
- `result res`: the per-injection notifier delivers `res`
  (lines 412-420);
- `stepStopped e`: `ss.NotifyStopped` fires and `ss.GetError()`
  returns `e` (lines 421-423);
- `ctxDone e`: the context is done while waiting and `ctx.Err()` is `e`
  (lines 424-426). -/
inductive IterEvent
  | earlyBreak
  | runFail (e : RErr)
  | result (res : Option GoErr)
  | stepStopped (e : Option RErr)
  | ctxDone (e : RErr)
deriving DecidableEq, Repr

/-- Outcome of one `handleTarget` loop iteration: either the handler
returns (`stop`, carrying the final state and its return error), or the
loop continues at index `i` with the updated state. -/
inductive IterRes
  | stop (tgs : TargetState) (err : Option RErr)
  | next (i : Nat) (tgs : TargetState)
deriving DecidableEq, Repr

/-- Phase switch at the top of the `handleTarget` loop body
(test_runner.go lines 367-384), including the `init → begin` write of
line 370: terminal phase breaks the loop (returning nil),
invalid/obsolete return a programmer error, and the remaining phases
continue into the iteration body `k`. -/
def phaseGate (tgs : TargetState) (k : TargetState → IterRes) : IterRes :=
  match tgs.CurPhase with
  | .end_ => .stop tgs none
  | .invalid => .stop tgs (some (.other "invalid phase"))
  | .obsolete => .stop tgs (some (.other "invalid phase"))
  | .init => k { tgs with CurPhase := .begin_ }
  | .begin_ => k tgs
  | .run => k tgs

/-- The guarded `begin → run` write after a successful injection
(test_runner.go lines 397-403). -/
def advanceInjected (tgs : TargetState) : TargetState :=
  if tgs.CurPhase = .begin_ then { tgs with CurPhase := .run } else tgs

/-- Loop tail after a nil-error wait (test_runner.go lines 440-450):
break when `Res` is set, otherwise `i++` and, while still inside the
pipeline, write `CurStep = i, CurPhase = init`. -/
def stepAdvance (n i : Nat) (tgs : TargetState) : IterRes :=
  if tgs.Res ≠ none then .stop tgs none
  else if i + 1 < n then .next (i + 1) { tgs with CurStep := i + 1, CurPhase := .init }
  else .next (i + 1) tgs

/-- One iteration of the `handleTarget` loop body (test_runner.go lines
355-450) at loop index `i`, driven by scheduler event `ev`; `n` is the
pipeline length. Follows the source order: early pause/cancel check,
phase switch, step start plus injection with the guarded `begin → run`
write, the three-way wait, the error return of line 437, and the `Res`
check plus advance of lines 440-450. -/
def handleTargetIter (n : Nat) (ev : IterEvent) (i : Nat) (tgs : TargetState) : IterRes :=
  match ev with
  | .earlyBreak => .stop tgs none
  | .runFail e => phaseGate tgs (fun tgs1 => .stop tgs1 (some e))
  | .ctxDone e => phaseGate tgs (fun tgs1 => .stop (advanceInjected tgs1) (some e))
  | .stepStopped e =>
    phaseGate tgs (fun tgs1 =>
      match e with
      | some err => .stop (advanceInjected tgs1) (some err)
      | none => stepAdvance n i (advanceInjected tgs1))
  | .result res =>
    phaseGate tgs (fun tgs1 =>
      let tgs2 := advanceInjected tgs1
      stepAdvance n i { tgs2 with
        Res := match res with | some e => some e | none => tgs2.Res,
        CurPhase := .end_ })

/-- The `handleTarget` loop (test_runner.go lines 353-452): iterate
from index `i` while `i < n`, consuming one scheduler event per
iteration; an exhausted event list behaves like a pause/cancel break.
Returns the final target state and the handler's return error. -/
def handleTargetLoop (n : Nat) : List IterEvent → Nat → TargetState →
    TargetState × Option RErr
  | [], _, tgs => (tgs, none)
  | ev :: evs, i, tgs =>
    if i < n then
      match handleTargetIter n ev i tgs with
      | .stop t e => (t, e)
      | .next i' t => handleTargetLoop n evs i' t
    else (tgs, none)

/-- Entry point of `handleTarget` for one target: the loop starts at
the state's current step (test_runner.go line 354). -/
def handleTargetGo (n : Nat) (evs : List IterEvent) (tgs : TargetState) :
    TargetState × Option RErr :=
  handleTargetLoop n evs tgs.CurStep tgs

/-- CLAIM C4 counterexample: a target in phase `run` at step 0 of a
two-step pipeline whose step stops with a nil error (`NotifyStopped`
fires and `GetError()` returns nil, lines 421-423). The iteration falls
through to lines 440-450 with the phase still `run` — line 418's `end`
write sits only in the result branch — and performs the single
mutation (0, run) → (1, init), a transition the claimed order (phase
steps within a step, next-step jumps from `end` only) does not
contain. -/
theorem c4_counterexample :
    handleTargetIter 2 (.stepStopped none) 0
        { tgt := some ⟨"T1"⟩, CurStep := 0, CurPhase := .run } =
      .next 1 { tgt := some ⟨"T1"⟩, CurStep := 1, CurPhase := .init } ∧
    ¬ specPhaseOrder (0, .run) (1, .init) := by
  refine ⟨by decide, fun h => ?_⟩
  cases h

/-- Completeness of the `handlerMut` enumeration against the
executable loop body: under the loop invariant `CurStep = i`, the net
evolution of `(CurStep, CurPhase)` across one iteration — whichever
scheduler event drives it and whether it stops or continues — lies in
the reflexive-transitive closure of `handlerMut`. -/
theorem handleTargetIter_in_mut_closure (n : Nat) (ev : IterEvent) (i : Nat)
    (tgs : TargetState) (hstep : tgs.CurStep = i) :
    (∀ t e, handleTargetIter n ev i tgs = .stop t e →
      Relation.ReflTransGen handlerMut (tgs.CurStep, tgs.CurPhase)
        (t.CurStep, t.CurPhase)) ∧
    (∀ i' t, handleTargetIter n ev i tgs = .next i' t →
      Relation.ReflTransGen handlerMut (tgs.CurStep, tgs.CurPhase)
        (t.CurStep, t.CurPhase)) := by
  subst hstep
  cases ev <;> cases hph : tgs.CurPhase <;>
    refine ⟨fun t e'' h => ?_, fun i' t h => ?_⟩ <;>
    simp only [handleTargetIter, phaseGate, advanceInjected, stepAdvance, hph] at h <;>
    (repeat' split at h) <;>
    (try injection h with h1 h2) <;>
    (try subst h1) <;> (try subst h2) <;>
    (try rw [hph]) <;>
    first
      | exact absurd h (by simp)
      | exact .refl
      | exact .single (.initToBegin _)
      | exact .single (.beginToRun _)
      | exact .single (.runToEnd _)
      | exact .single (.beginToEnd _)
      | exact .single (.advance _)
      | exact .single (.advanceFromRun _)
      | exact .head (.initToBegin _) (.single (.beginToRun _))
      | exact .head (.beginToRun _) (.single (.runToEnd _))
      | exact .head (.beginToRun _) (.single (.advanceFromRun _))
      | exact .head (.runToEnd _) (.single (.advance _))
      | exact .head (.initToBegin _) (.head (.beginToRun _) (.single (.runToEnd _)))
      | exact .head (.initToBegin _) (.head (.beginToRun _) (.single (.advanceFromRun _)))

theorem advanceInjected_curStep (s : TargetState) :
    (advanceInjected s).CurStep = s.CurStep := by
  unfold advanceInjected
  split <;> rfl

theorem stepAdvance_spec (n i : Nat) (tgs : TargetState) :
    (∀ t e, stepAdvance n i tgs = .stop t e → t.CurStep = tgs.CurStep) ∧
    (∀ i' t, stepAdvance n i tgs = .next i' t →
      t.CurStep = tgs.CurStep ∨ (i' < n ∧ t.CurStep = i')) := by
  constructor
  · intro t e h
    unfold stepAdvance at h
    split at h
    · cases h; rfl
    · split at h <;> cases h
  · intro i' t h
    unfold stepAdvance at h
    split at h
    · cases h
    · split at h
      · cases h
        exact Or.inr ⟨by assumption, rfl⟩
      · cases h
        exact Or.inl rfl

theorem phaseGate_out (tgs : TargetState) (k : TargetState → IterRes) :
    (∃ e, phaseGate tgs k = .stop tgs e) ∨
    (∃ s, s.CurStep = tgs.CurStep ∧ s.Res = tgs.Res ∧ phaseGate tgs k = k s) := by
  unfold phaseGate
  cases tgs.CurPhase
  · exact Or.inl ⟨_, rfl⟩
  · exact Or.inr ⟨{ tgs with CurPhase := .begin_ }, rfl, rfl, rfl⟩
  · exact Or.inr ⟨tgs, rfl, rfl, rfl⟩
  · exact Or.inr ⟨tgs, rfl, rfl, rfl⟩
  · exact Or.inl ⟨_, rfl⟩
  · exact Or.inl ⟨_, rfl⟩

theorem handleTargetIter_curStep (n : Nat) (ev : IterEvent) (i : Nat) (tgs : TargetState) :
    (∀ t e, handleTargetIter n ev i tgs = .stop t e → t.CurStep = tgs.CurStep) ∧
    (∀ i' t, handleTargetIter n ev i tgs = .next i' t →
      t.CurStep = tgs.CurStep ∨ (i' < n ∧ t.CurStep = i')) := by
  cases ev <;> cases hph : tgs.CurPhase <;>
    refine ⟨fun t e'' h => ?_, fun i' t h => ?_⟩ <;>
    simp only [handleTargetIter, phaseGate, advanceInjected, stepAdvance, hph] at h <;>
    (repeat' split at h) <;>
    (try injection h with h1 h2) <;>
    (try subst h1) <;> (try subst h2) <;> simp_all

theorem handleTargetLoop_curStep_lt (n : Nat) (evs : List IterEvent) (i : Nat)
    (tgs : TargetState) (hlt : tgs.CurStep < n) :
    (handleTargetLoop n evs i tgs).1.CurStep < n := by
  induction evs generalizing i tgs with
  | nil => exact hlt
  | cons ev evs ih =>
    unfold handleTargetLoop
    split
    · cases hiter : handleTargetIter n ev i tgs with
      | stop t e =>
        simp only [hiter]
        rw [(handleTargetIter_curStep n ev i tgs).1 t e hiter]
        exact hlt
      | next i' t =>
        simp only [hiter]
        rcases (handleTargetIter_curStep n ev i tgs).2 i' t hiter with h1 | h2
        · exact ih i' t (h1 ▸ hlt)
        · exact ih i' t (h2.2 ▸ h2.1)
    · exact hlt

/-- CLAIM C5 counterexample: a one-step pipeline run to successful
completion. The handler returns nil, the final phase is `end` — the
target has passed the last step and exited the pipeline — yet `CurStep`
is 0, not N = 1: lines 445-449 only write `CurStep = i` while
`i < len(steps)`, so `CurStep` never reaches N. -/
theorem c5_counterexample :
    (handleTargetGo 1 [IterEvent.result none]
        { tgt := some ⟨"T1"⟩, CurStep := 0, CurPhase := .init }).2 = none ∧
    (handleTargetGo 1 [IterEvent.result none]
        { tgt := some ⟨"T1"⟩, CurStep := 0, CurPhase := .init }).1.CurPhase = .end_ ∧
    ¬((handleTargetGo 1 [IterEvent.result none]
        { tgt := some ⟨"T1"⟩, CurStep := 0, CurPhase := .init }).1.CurStep = 1) := by
  decide

/-- CLAIM C5 (amended): for every run of the target handler over an
N-step pipeline that starts with `CurStep < N`, `CurStep` stays in
[0, N-1] at exit — the handler never sets `CurStep` to N; a target that
exits the pipeline keeps `CurStep = N-1` (with `CurPhase = end`), and
exit is encoded by that pair rather than by `CurStep == N`. -/
theorem c5_curStep_bounded (n : Nat) (evs : List IterEvent) (tgs : TargetState)
    (h : tgs.CurStep < n) : (handleTargetGo n evs tgs).1.CurStep < n :=
  handleTargetLoop_curStep_lt n evs tgs.CurStep tgs h

/-- Witness for the amended C5 at a concrete input. -/
theorem c5_curStep_bounded_witness :
    (({ tgt := some ⟨"T1"⟩, CurStep := 0, CurPhase := .init } : TargetState).CurStep < 1) ∧
    (handleTargetGo 1 [IterEvent.result none]
        { tgt := some ⟨"T1"⟩, CurStep := 0, CurPhase := .init }).1.CurStep < 1 :=
  ⟨by decide, c5_curStep_bounded 1 [IterEvent.result none]
    { tgt := some ⟨"T1"⟩, CurStep := 0, CurPhase := .init } (by decide)⟩

/-- Go slice indexing `xs[i]`, made total by returning `none` where Go
panics with index-out-of-range. -/
def listIdx {β : Type} : List β → Nat → Option β
  | [], _ => none
  | b :: _, 0 => some b
  | _ :: rest, n + 1 => listIdx rest n

/-- What the final state-examination loop reads from one `stepState`:
its label and the step error `GetError()` reports. -/
structure StepInfo where
  label : String
  err : Option RErr
deriving DecidableEq, Repr

/-- The state-examination loop of `Run` (test_runner.go lines 242-261):
for each supplied target, look its state up (a missing entry would be a
nil-pointer dereference), store the collected steps variables, index
the step array at `CurStep` (`tr.steps[tgs.CurStep]`, line 250 — the
index is **not** guarded by an emptiness or range check, so it is an
out-of-bounds panic whenever `CurStep ≥ len(steps)`), and update
`resumeOk` / `numInFlightTargets` exactly as the source does.
`getVars` models `stepOutputs.getTargetStepsVariables`.  Modelled from
the spec: the steps-variables container lives outside this repository
slice; per spec §4.3 collecting a target's variable bag has no failure
mode, so `getVars` is total and the source's dead error branch at lines
246-249 has no counterpart. -/
def examineLoop (steps : List StepInfo) (getVars : String → StepsVars) :
    List Target → List (String × TargetState) → Bool → Nat →
    Except GoPanic (List (String × TargetState) × Bool × Nat)
  | [], states, resumeOk, nif => .ok (states, resumeOk, nif)
  | tgt :: rest, states, resumeOk, nif =>
    match alookup states tgt.ID with
    | none => .error .nilDeref
    | some tgs =>
      let tgs1 := { tgs with StepsVariables := getVars tgt.ID }
      let states1 := updateTS states tgt.ID tgs1
      match listIdx steps tgs1.CurStep with
      | none => .error (.indexOutOfRange tgs1.CurStep steps.length)
      | some si =>
        let nif1 := if tgs1.CurPhase = .run then nif + 1 else nif
        let resumeOk1 :=
          if tgs1.CurPhase = .run ∧ si.err ≠ some .paused then false else resumeOk
        let resumeOk2 :=
          if si.err ≠ none ∧ si.err ≠ some .paused then false else resumeOk1
        examineLoop steps getVars rest states1 resumeOk2 nif1

/-- Per-target rule of the result computation (test_runner.go lines
296-301): the entry value for a state, or `none` when the target gets
no entry — `Res` if set, else nil if the target sits at the last step
(`CurStep == len(steps)-1`, a Go int comparison, hence `Int` here) in
phase `end`, else absent. -/
def resValue (numSteps : Nat) (st : TargetState) : Option (Option GoErr) :=
  match st.Res with
  | some e => some (some e)
  | none =>
    if (st.CurStep : Int) = (numSteps : Int) - 1 ∧ st.CurPhase = .end_ then some none
    else none

/-- One iteration of the results loop: the `(id, value)` pair appended
to the map, if any. -/
def resultEntry (numSteps : Nat) (p : String × TargetState) :
    Option (String × Option GoErr) :=
  (resValue numSteps p.2).map (fun v => (p.1, v))

/-- Result computation of `Run` (test_runner.go lines 295-302). -/
def computeResults (numSteps : Nat) (states : List (String × TargetState)) :
    List (String × Option GoErr) :=
  states.filterMap (resultEntry numSteps)

/-- The triple `Run` returns (snapshot bytes, per-target results map,
run error). -/
structure RunTailOut where
  resumeState : RawMessage
  results : Option (List (String × Option GoErr))
  runErr : Option RErr
deriving DecidableEq, Repr

/-- Tail of `Run` after the monitor loop and `waitSteps` have finished
(test_runner.go lines 230-303), in source order:
- cancellation check (231-235): if the outer context is done, the run
  error becomes `Canceled`;
- state examination (239-261, `examineLoop`), with `resumeOk`
  initialized to `runErr == nil` (line 241);
- the early return of a non-nil run error as `(nil, nil, runErr)`
  (269-271);
- the pause path (274-293): only when pause was signaled and the run is
  resumable is the snapshot re-marshalled and the error set to
  `Paused`; otherwise the `resumeState` argument passed to `Run` is
  left in place and later returned verbatim;
- result computation and final return (295-303).
`ctxDone` is whether `ctx.Done()` was readable at line 231, `pauseSig`
whether `ctx.Until(ErrPaused)` was readable at line 274, `runErr0` the
run error accumulated by the monitor loop merged with the `waitSteps`
error, and `marshal` stands for `json.Marshal`, total because
marshalling this struct cannot fail. -/
def runTailCore (steps : List StepInfo) (targets : List Target)
    (states : List (String × TargetState)) (getVars : String → StepsVars)
    (marshal : ResumeStateStruct → RawMessage) (pauseSig : Bool)
    (runErr1 : Option RErr) (stepResumeStates : List RawMessage)
    (resumeStateArg : RawMessage) : Except GoPanic RunTailOut :=
  match examineLoop steps getVars targets states runErr1.isNone 0 with
  | .error p => .error p
  | .ok (states1, resumeOk, _nif) =>
    match runErr1 with
    | some e => .ok ⟨"", none, some e⟩
    | none =>
      let pr : RawMessage × Option RErr :=
        if pauseSig then
          if resumeOk then
            (marshal ⟨resumeStateStructVersion, states1, stepResumeStates⟩,
              some RErr.paused)
          else (resumeStateArg, none)
        else (resumeStateArg, none)
      .ok ⟨pr.1, some (computeResults steps.length states1), pr.2⟩

/-- Entry into the tail: the cancellation check of lines 231-235 folded
into the run error handed to the rest of the tail. -/
def runTail (steps : List StepInfo) (targets : List Target)
    (states : List (String × TargetState)) (getVars : String → StepsVars)
    (marshal : ResumeStateStruct → RawMessage)
    (ctxDone pauseSig : Bool) (runErr0 : Option RErr)
    (stepResumeStates : List RawMessage) (resumeStateArg : RawMessage) :
    Except GoPanic RunTailOut :=
  runTailCore steps targets states getVars marshal pauseSig
    (if ctxDone then some RErr.canceled else runErr0) stepResumeStates resumeStateArg

theorem foldl_inv {α β : Type} (P : β → Prop) (f : β → α → β) (l : List α) (b : β)
    (hb : P b) (hf : ∀ b a, P b → P (f b a)) : P (l.foldl f b) := by
  induction l generalizing b with
  | nil => exact hb
  | cons a l ih => exact ih (f b a) (hf b a hb)

theorem seedOne_isSome_self (acc : List (String × TargetState)) (tgt : Target) :
    (alookup (seedOne acc tgt) tgt.ID).isSome := by
  simp only [seedOne]
  rw [alookup_insertTS]
  simp

theorem seedOne_isSome_mono (acc : List (String × TargetState)) (tgt : Target)
    (id : String) (h : (alookup acc id).isSome) :
    (alookup (seedOne acc tgt) id).isSome := by
  simp only [seedOne]
  rw [alookup_insertTS]
  split
  · simp
  · exact h

theorem foldl_seedOne_isSome (targets : List Target) (acc : List (String × TargetState))
    (id : String) (h : (alookup acc id).isSome) :
    (alookup (targets.foldl seedOne acc) id).isSome := by
  induction targets generalizing acc with
  | nil => exact h
  | cons t rest ih => exact ih _ (seedOne_isSome_mono acc t id h)

theorem foldl_seedOne_mem_isSome (targets : List Target) :
    ∀ (acc : List (String × TargetState)) (tgt : Target), tgt ∈ targets →
    (alookup (targets.foldl seedOne acc) tgt.ID).isSome := by
  induction targets with
  | nil =>
    intro acc tgt ht
    cases ht
  | cons t rest ih =>
    intro acc tgt ht
    rcases List.mem_cons.mp ht with h1 | h2
    · subst h1
      exact foldl_seedOne_isSome rest (seedOne acc tgt) tgt.ID (seedOne_isSome_self acc tgt)
    · exact ih (seedOne acc t) tgt h2

theorem seedTargetStates_mem_isSome (targets : List Target) (tgt : Target)
    (ht : tgt ∈ targets) :
    (alookup (seedTargetStates none targets) tgt.ID).isSome :=
  foldl_seedOne_mem_isSome targets [] tgt ht

theorem seedOne_curStep_zero (acc : List (String × TargetState)) (tgt : Target)
    (hP : ∀ id st, alookup acc id = some st → st.CurStep = 0) :
    ∀ id st, alookup (seedOne acc tgt) id = some st → st.CurStep = 0 := by
  intro id st h
  simp only [seedOne] at h
  rw [alookup_insertTS] at h
  split at h
  · cases h
    cases hl : alookup acc tgt.ID with
    | none => simp [hl]
    | some t0 => simpa [hl] using hP tgt.ID t0 hl
  · exact hP id st h

theorem seedTargetStates_fresh_curStep (targets : List Target) :
    ∀ id st, alookup (seedTargetStates none targets) id = some st → st.CurStep = 0 := by
  unfold seedTargetStates
  exact foldl_inv (fun acc => ∀ id st, alookup acc id = some st → st.CurStep = 0)
    seedOne targets (none.getD [])
    (fun id st h => by cases h)
    (fun acc tgt hP => seedOne_curStep_zero acc tgt hP)

/-- CLAIM C9: calling `Run` with an empty step list and at least one
target makes the state-examination phase index the empty step array at
the (fresh) target's `CurStep = 0` — `tr.steps[tgs.CurStep]` at line
250 has no emptiness guard — so evaluation reaches an out-of-bounds
access instead of producing a result, whatever the scheduler flags,
resume argument or remaining targets are. -/
theorem c9_empty_pipeline_oob (t : Target) (restTargets : List Target)
    (getVars : String → StepsVars) (marshal : ResumeStateStruct → RawMessage)
    (ctxDone pauseSig : Bool) (runErr0 : Option RErr)
    (srs : List RawMessage) (arg : RawMessage) :
    runTail [] (t :: restTargets) (seedTargetStates none (t :: restTargets))
      getVars marshal ctxDone pauseSig runErr0 srs arg =
      .error (.indexOutOfRange 0 0) := by
  obtain ⟨st, hst⟩ := Option.isSome_iff_exists.mp
    (seedTargetStates_mem_isSome (t :: restTargets) t (List.mem_cons_self _ _))
  have h0 : st.CurStep = 0 :=
    seedTargetStates_fresh_curStep (t :: restTargets) t.ID st hst
  have hex : ∀ b : Bool, examineLoop [] getVars (t :: restTargets)
      (seedTargetStates none (t :: restTargets)) b 0 =
      .error (.indexOutOfRange 0 0) := by
    intro b
    simp [examineLoop, hst, h0, listIdx]
  simp [runTail, runTailCore, hex]

theorem keys_updateTS (states : List (String × TargetState)) (k : String)
    (v : TargetState) :
    (updateTS states k v).map Prod.fst = states.map Prod.fst := by
  induction states with
  | nil => rfl
  | cons p rest ih =>
    by_cases hp : p.1 = k <;> simp [updateTS, hp] <;> simpa [updateTS] using ih

theorem examineLoop_keys (steps : List StepInfo) (getVars : String → StepsVars) :
    ∀ (tgts : List Target) (states : List (String × TargetState)) (ok : Bool) (nif : Nat)
      (states1 : List (String × TargetState)) (ok1 : Bool) (nif1 : Nat),
      examineLoop steps getVars tgts states ok nif = .ok (states1, ok1, nif1) →
      states1.map Prod.fst = states.map Prod.fst := by
  intro tgts
  induction tgts with
  | nil =>
    intro states ok nif states1 ok1 nif1 h
    simp only [examineLoop, Except.ok.injEq, Prod.mk.injEq] at h
    obtain ⟨h1, h2, h3⟩ := h
    rw [h1]
  | cons tgt rest ih =>
    intro states ok nif states1 ok1 nif1 h
    simp only [examineLoop] at h
    cases hlk : alookup states tgt.ID with
    | none =>
      simp only [hlk] at h
      cases h
    | some tgs =>
      simp only [hlk] at h
      cases hget : listIdx steps tgs.CurStep with
      | none =>
        simp only [hget] at h
        cases h
      | some si =>
        simp only [hget] at h
        rw [ih _ _ _ _ _ _ h, keys_updateTS]

theorem examineLoop_core (steps : List StepInfo) (getVars : String → StepsVars) :
    ∀ (tgts : List Target) (states : List (String × TargetState)) (ok : Bool) (nif : Nat)
      (states1 : List (String × TargetState)) (ok1 : Bool) (nif1 : Nat),
      examineLoop steps getVars tgts states ok nif = .ok (states1, ok1, nif1) →
      ∀ id, (alookup states1 id = none ∧ alookup states id = none) ∨
        ∃ a b, alookup states1 id = some a ∧ alookup states id = some b ∧
          a.Res = b.Res ∧ a.CurStep = b.CurStep ∧ a.CurPhase = b.CurPhase := by
  intro tgts
  induction tgts with
  | nil =>
    intro states ok nif states1 ok1 nif1 h id
    simp only [examineLoop, Except.ok.injEq, Prod.mk.injEq] at h
    obtain ⟨h1, h2, h3⟩ := h
    subst h1
    cases hl : alookup states id with
    | none => exact Or.inl ⟨rfl, rfl⟩
    | some a => exact Or.inr ⟨a, a, rfl, rfl, rfl, rfl, rfl⟩
  | cons tgt rest ih =>
    intro states ok nif states1 ok1 nif1 h id
    simp only [examineLoop] at h
    cases hlk : alookup states tgt.ID with
    | none =>
      simp only [hlk] at h
      cases h
    | some tgs =>
      simp only [hlk] at h
      cases hget : listIdx steps tgs.CurStep with
      | none =>
        simp only [hget] at h
        cases h
      | some si =>
        simp only [hget] at h
        have hmid := ih _ _ _ _ _ _ h id
        have hupd := alookup_updateTS states tgt.ID
          { tgs with StepsVariables := getVars tgt.ID } id
        by_cases hid : tgt.ID = id
        · subst hid
          rw [if_pos rfl, hlk] at hupd
          rcases hmid with ⟨h1, h2⟩ | ⟨a, b, h1, h2, h3, h4, h5⟩
          · rw [hupd] at h2
            cases h2
          · rw [hupd] at h2
            cases h2
            exact Or.inr ⟨a, tgs, h1, hlk, h3, h4, h5⟩
        · rw [if_neg hid] at hupd
          rcases hmid with ⟨h1, h2⟩ | ⟨a, b, h1, h2, h3, h4, h5⟩
          · exact Or.inl ⟨h1, hupd ▸ h2⟩
          · exact Or.inr ⟨a, b, h1, hupd ▸ h2, h3, h4, h5⟩

theorem alookup_eq_none {β : Type} (l : List (String × β)) (id : String)
    (h : id ∉ l.map Prod.fst) : alookup l id = none := by
  induction l with
  | nil => rfl
  | cons p rest ih =>
    simp only [List.map, List.mem_cons] at h
    push_neg at h
    rw [alookup, if_neg (fun hh => h.1 hh.symm)]
    exact ih h.2

theorem keys_computeResults_subset (n : Nat) (states : List (String × TargetState))
    (id : String) (h : id ∈ (computeResults n states).map Prod.fst) :
    id ∈ states.map Prod.fst := by
  induction states with
  | nil => simp [computeResults] at h
  | cons p rest ih =>
    simp only [computeResults, List.filterMap_cons] at h
    cases hre : resultEntry n p with
    | none =>
      rw [hre] at h
      exact List.mem_cons_of_mem _ (ih h)
    | some pr =>
      rw [hre] at h
      simp only [List.map, List.mem_cons] at h
      rcases h with h1 | h2
      · have : pr.1 = p.1 := by
          simp only [resultEntry] at hre
          cases hrv : resValue n p.2 with
          | none => rw [hrv] at hre; cases hre
          | some v =>
            rw [hrv] at hre
            cases hre
            rfl
        simp [h1, this]
      · exact List.mem_cons_of_mem _ (ih h2)

theorem alookup_computeResults (n : Nat) (states : List (String × TargetState))
    (id : String) (hnd : (states.map Prod.fst).Nodup) :
    alookup (computeResults n states) id = (alookup states id).bind (resValue n) := by
  induction states with
  | nil => rfl
  | cons p rest ih =>
    obtain ⟨hhead, hnd'⟩ := List.nodup_cons.mp hnd
    simp only [computeResults, List.filterMap_cons]
    cases hrv : resValue n p.2 with
    | none =>
      have hre : resultEntry n p = none := by
        simp [resultEntry, hrv]
      rw [hre]
      by_cases hid : p.1 = id
      · subst hid
        have h1 : alookup (computeResults n rest) p.1 = none :=
          alookup_eq_none _ _ (fun hmem => hhead (keys_computeResults_subset n rest p.1 hmem))
        simp only [computeResults] at h1
        rw [h1, alookup, if_pos rfl]
        simp [hrv]
      · rw [alookup, if_neg hid]
        exact ih hnd'
    | some v =>
      have hre : resultEntry n p = some (p.1, v) := by
        simp [resultEntry, hrv]
      rw [hre]
      by_cases hid : p.1 = id
      · subst hid
        rw [alookup, if_pos rfl, alookup, if_pos rfl]
        simp [hrv]
      · rw [alookup, if_neg hid, alookup, if_neg hid]
        exact ih hnd'

theorem runTailCore_ok_shape (steps : List StepInfo) (targets : List Target)
    (states : List (String × TargetState)) (getVars : String → StepsVars)
    (marshal : ResumeStateStruct → RawMessage) (pauseSig : Bool)
    (runErr1 : Option RErr) (srs : List RawMessage) (arg : RawMessage)
    (out : RunTailOut)
    (h : runTailCore steps targets states getVars marshal pauseSig runErr1 srs arg =
      .ok out) :
    (∃ e, runErr1 = some e ∧ out = ⟨"", none, some e⟩) ∨
    (runErr1 = none ∧
      ∃ states1 ok1 nif1,
        examineLoop steps getVars targets states true 0 = .ok (states1, ok1, nif1) ∧
        out.results = some (computeResults steps.length states1) ∧
        ((pauseSig = true ∧ ok1 = true ∧
            out.resumeState = marshal ⟨resumeStateStructVersion, states1, srs⟩ ∧
            out.runErr = some RErr.paused) ∨
          (¬(pauseSig = true ∧ ok1 = true) ∧
            out.resumeState = arg ∧ out.runErr = none))) := by
  cases runErr1 with
  | some e =>
    left
    refine ⟨e, rfl, ?_⟩
    simp only [runTailCore, Option.isNone_some] at h
    cases hex : examineLoop steps getVars targets states false 0 with
    | error p =>
      rw [hex] at h
      cases h
    | ok triple =>
      rw [hex] at h
      obtain ⟨states1, ok1, nif1⟩ := triple
      cases h
      rfl
  | none =>
    right
    simp only [runTailCore, Option.isNone_none] at h
    cases hex : examineLoop steps getVars targets states true 0 with
    | error p =>
      rw [hex] at h
      cases h
    | ok triple =>
      rw [hex] at h
      obtain ⟨states1, ok1, nif1⟩ := triple
      refine ⟨rfl, states1, ok1, nif1, rfl, ?_⟩
      cases pauseSig with
      | false =>
        simp only [Bool.false_eq_true, if_false] at h
        cases h
        exact ⟨rfl, Or.inr ⟨by simp, rfl, rfl⟩⟩
      | true =>
        cases ok1 with
        | true =>
          simp only [if_true] at h
          cases h
          exact ⟨rfl, Or.inl ⟨rfl, rfl, rfl, rfl⟩⟩
        | false =>
          simp only [Bool.false_eq_true, if_true, if_false] at h
          cases h
          exact ⟨rfl, Or.inr ⟨by simp, rfl, rfl⟩⟩

/-- CLAIM C7: whenever the outer context was canceled (the
`select` at lines 230-235 sees `ctx.Done()`), any `Run` invocation that
returns does so with run error `Canceled`, regardless of the monitor's
accumulated error, any pause notification, or the examination outcome. -/
theorem c7_canceled_overrides (steps : List StepInfo) (targets : List Target)
    (states : List (String × TargetState)) (getVars : String → StepsVars)
    (marshal : ResumeStateStruct → RawMessage) (pauseSig : Bool)
    (runErr0 : Option RErr) (srs : List RawMessage) (arg : RawMessage)
    (out : RunTailOut)
    (h : runTail steps targets states getVars marshal true pauseSig runErr0 srs arg =
      .ok out) :
    out.runErr = some RErr.canceled := by
  rcases runTailCore_ok_shape _ _ _ _ _ _ _ _ _ _ h with
    ⟨e, he, hout⟩ | ⟨hnone, _⟩
  · rw [if_pos rfl] at he
    cases he
    rw [hout]
  · rw [if_pos rfl] at hnone
    cases hnone

/-- Witness for C7 at a concrete input: an empty run with the context
canceled returns `Canceled`. -/
theorem c7_canceled_overrides_witness :
    runTail [] [] [] (fun _ => []) (fun _ => "") true false none [] "" =
      .ok ⟨"", none, some RErr.canceled⟩ ∧
    (⟨"", none, some RErr.canceled⟩ : RunTailOut).runErr = some RErr.canceled :=
  ⟨by rfl, c7_canceled_overrides [] [] [] (fun _ => []) (fun _ => "") false none [] ""
    _ (by rfl)⟩

/-- CLAIM C1 counterexample: a run that was handed a non-empty resume
snapshot argument and finishes with a nil run error returns that very
snapshot — non-empty bytes with neither a `Paused` error nor a fresh
marshalling: only the pause path at lines 280-291 overwrites the
`resumeState` variable returned at line 303, and the fatal path returns
nil, so on the nil-error path the input bytes flow through verbatim. -/
theorem c1_counterexample :
    runTail [⟨"step1", none⟩] [⟨"T1"⟩]
      [("T1", { tgt := some ⟨"T1"⟩, CurStep := 0, CurPhase := .end_ })]
      (fun _ => []) (fun _ => "new-snapshot") false false none [] "input-snapshot" =
      .ok ⟨"input-snapshot", some [("T1", none)], none⟩ ∧
    ("input-snapshot" : RawMessage) ≠ ("" : RawMessage) :=
  ⟨by rfl, by decide⟩

/-- CLAIM C1 (amended): whenever `Run` returns a fatal (non-nil,
non-Paused) error the returned snapshot is empty and the results map is
nil; but when `Run` returns a nil error the returned snapshot equals
the resume-snapshot argument verbatim (hence is non-empty exactly when
the input was), so "non-empty only when Paused" holds only for runs
started without a resume snapshot. -/
theorem c1_snapshot_amended (steps : List StepInfo) (targets : List Target)
    (states : List (String × TargetState)) (getVars : String → StepsVars)
    (marshal : ResumeStateStruct → RawMessage) (ctxDone pauseSig : Bool)
    (runErr0 : Option RErr) (srs : List RawMessage) (arg : RawMessage)
    (out : RunTailOut)
    (h : runTail steps targets states getVars marshal ctxDone pauseSig runErr0 srs arg =
      .ok out) :
    (∀ e, out.runErr = some e → e ≠ RErr.paused →
      out.resumeState = "" ∧ out.results = none) ∧
    (out.runErr = none → out.resumeState = arg) := by
  rcases runTailCore_ok_shape _ _ _ _ _ _ _ _ _ _ h with
    ⟨e, he, hout⟩ | ⟨hnone, states1, ok1, nif1, hex, hres, hdisj⟩
  · subst hout
    refine ⟨fun e' he' hne => ?_, fun h0 => ?_⟩
    · exact ⟨rfl, rfl⟩
    · cases h0
  · rcases hdisj with ⟨hp, hok1, hsnap, herr⟩ | ⟨hnp, hsnap, herr⟩
    · refine ⟨fun e' he' hne => ?_, fun h0 => ?_⟩
      · rw [herr] at he'
        cases he'
        exact absurd rfl hne
      · rw [herr] at h0
        cases h0
    · refine ⟨fun e' he' hne => ?_, fun h0 => ?_⟩
      · rw [herr] at he'
        cases he'
      · exact hsnap

/-- Witness for the amended C1: a fatal run returns empty snapshot and
nil results. -/
theorem c1_snapshot_amended_witness :
    runTail [⟨"step1", some (.other "boom")⟩] [] [] (fun _ => []) (fun _ => "")
      false false (some (.other "boom")) [] "input-snapshot" =
      .ok ⟨"", none, some (.other "boom")⟩ ∧
    ((∀ e, (⟨"", none, some (.other "boom")⟩ : RunTailOut).runErr = some e →
        e ≠ RErr.paused →
        (⟨"", none, some (.other "boom")⟩ : RunTailOut).resumeState = "" ∧
        (⟨"", none, some (.other "boom")⟩ : RunTailOut).results = none) ∧
      ((⟨"", none, some (.other "boom")⟩ : RunTailOut).runErr = none →
        (⟨"", none, some (.other "boom")⟩ : RunTailOut).resumeState = "input-snapshot")) :=
  ⟨by rfl, c1_snapshot_amended [⟨"step1", some (.other "boom")⟩] [] [] (fun _ => [])
    (fun _ => "") false false (some (.other "boom")) [] "input-snapshot" _ (by rfl)⟩

/-- The terminal-state condition encoded by the results loop: the
target carries a final `Res`, or it finished the last pipeline step
(`CurStep == len(steps)-1` in phase `end`). -/
def reachedTerminal (numSteps : Nat) (st : TargetState) : Prop :=
  st.Res ≠ none ∨
    ((st.CurStep : Int) = (numSteps : Int) - 1 ∧ st.CurPhase = .end_)

theorem resValue_isSome_iff (n : Nat) (st : TargetState) :
    (resValue n st).isSome = true ↔ reachedTerminal n st := by
  unfold resValue reachedTerminal
  cases hres : st.Res with
  | some e => simp
  | none =>
    by_cases hc : (st.CurStep : Int) = (n : Int) - 1 ∧ st.CurPhase = .end_ <;>
      simp [hc]

/-- CLAIM C2 counterexample: `Run` returning a fatal error returns a
nil results map (line 270), so a target that had already terminated
with a failure (`Res` set) is absent from the map — presence is not
equivalent to having reached a terminal state on the fatal path. -/
theorem c2_counterexample :
    runTail [⟨"step1", some (.other "boom")⟩] [⟨"T1"⟩]
      [("T1", { tgt := some ⟨"T1"⟩, CurStep := 0, CurPhase := .end_, Res := some "failed" })]
      (fun _ => []) (fun _ => "") false false (some (.other "boom")) [] "" =
      .ok ⟨"", none, some (.other "boom")⟩ ∧
    ({ tgt := some ⟨"T1"⟩, CurStep := 0, CurPhase := .end_,
        Res := some "failed" } : TargetState).Res ≠ none :=
  ⟨by rfl, by decide⟩

/-- CLAIM C2 (amended): when `Run` returns with a nil or `Paused` run
error, a target ID is present in the results map exactly when its state
reached a terminal state (its `Res` is set, or it finished the last
step in phase `end`); but when `Run` returns a fatal error the results
map is nil, so every target — terminated or not — is absent. -/
theorem c2_presence_amended (steps : List StepInfo) (targets : List Target)
    (states : List (String × TargetState)) (getVars : String → StepsVars)
    (marshal : ResumeStateStruct → RawMessage) (ctxDone pauseSig : Bool)
    (runErr0 : Option RErr) (srs : List RawMessage) (arg : RawMessage)
    (out : RunTailOut)
    (hnd : (states.map Prod.fst).Nodup)
    (hnp : runErr0 ≠ some RErr.paused)
    (h : runTail steps targets states getVars marshal ctxDone pauseSig runErr0 srs arg =
      .ok out) :
    (∀ e, out.runErr = some e → e ≠ RErr.paused → out.results = none) ∧
    ((out.runErr = none ∨ out.runErr = some RErr.paused) →
      ∃ m, out.results = some m ∧ ∀ id,
        (alookup m id).isSome = true ↔
          ∃ st, alookup states id = some st ∧ reachedTerminal steps.length st) := by
  rcases runTailCore_ok_shape _ _ _ _ _ _ _ _ _ _ h with
    ⟨e, he, hout⟩ | ⟨hnone, states1, ok1, nif1, hex, hres, hdisj⟩
  · subst hout
    refine ⟨fun e' he' hne => rfl, fun hor => ?_⟩
    rcases hor with h0 | h0
    · cases h0
    · cases h0
      cases ctxDone with
      | true =>
        rw [if_pos rfl] at he
        cases he
      | false =>
        rw [if_neg (by decide)] at he
        exact absurd he hnp
  · have hnd1 : (states1.map Prod.fst).Nodup := by
      rw [examineLoop_keys steps getVars targets states true 0 states1 ok1 nif1 hex]
      exact hnd
    refine ⟨fun e' he' hne => ?_, fun _ => ?_⟩
    · rcases hdisj with ⟨_, _, _, herr⟩ | ⟨_, _, herr⟩
      · rw [herr] at he'
        cases he'
        exact absurd rfl hne
      · rw [herr] at he'
        cases he'
    · refine ⟨computeResults steps.length states1, hres, fun id => ?_⟩
      rw [alookup_computeResults steps.length states1 id hnd1]
      rcases examineLoop_core steps getVars targets states true 0 states1 ok1 nif1 hex id
        with ⟨h1, h2⟩ | ⟨a, b, h1, h2, hr, hs, hp⟩
      · rw [h1, h2]
        simp
      · rw [h1, h2]
        simp only [Option.some_bind]
        constructor
        · intro hterm
          refine ⟨b, rfl, ?_⟩
          have := (resValue_isSome_iff steps.length a).mp (by simpa using hterm)
          unfold reachedTerminal at this ⊢
          rw [hr, hs, hp] at this
          exact this
        · rintro ⟨st, hst, hterm⟩
          cases hst
          have : reachedTerminal steps.length a := by
            unfold reachedTerminal at hterm ⊢
            rw [hr, hs, hp]
            exact hterm
          simpa using (resValue_isSome_iff steps.length a).mpr this

/-- Witness for the amended C2: a clean single-target, single-step run
whose target finished the last step. -/
theorem c2_presence_amended_witness :
    (((([("T1", ({ tgt := some ⟨"T1"⟩, CurStep := 0, CurPhase := .end_ } : TargetState))]).map Prod.fst).Nodup) ∧
      (none : Option RErr) ≠ some RErr.paused ∧
      runTail [⟨"s", none⟩] [⟨"T1"⟩]
        [("T1", { tgt := some ⟨"T1"⟩, CurStep := 0, CurPhase := .end_ })]
        (fun _ => []) (fun _ => "") false false none [] "" =
        .ok ⟨"", some [("T1", none)], none⟩) ∧
    ((∀ e, (⟨"", some [("T1", none)], none⟩ : RunTailOut).runErr = some e →
        e ≠ RErr.paused →
        (⟨"", some [("T1", none)], none⟩ : RunTailOut).results = none) ∧
      (((⟨"", some [("T1", none)], none⟩ : RunTailOut).runErr = none ∨
          (⟨"", some [("T1", none)], none⟩ : RunTailOut).runErr = some RErr.paused) →
        ∃ m, (⟨"", some [("T1", none)], none⟩ : RunTailOut).results = some m ∧ ∀ id,
          (alookup m id).isSome = true ↔
            ∃ st, alookup [("T1", ({ tgt := some ⟨"T1"⟩, CurStep := 0, CurPhase := .end_ } : TargetState))] id = some st ∧
              reachedTerminal ([(⟨"s", none⟩ : StepInfo)]).length st)) :=
  ⟨⟨by decide, by decide, by rfl⟩,
    c2_presence_amended [⟨"s", none⟩] [⟨"T1"⟩]
      [("T1", { tgt := some ⟨"T1"⟩, CurStep := 0, CurPhase := .end_ })]
      (fun _ => []) (fun _ => "") false false none [] ""
      _ (by decide) (by decide) (by rfl)⟩

/-- CLAIM C3: when `Run` returns with a nil or `Paused` run error, the
per-target results map is computed per target exactly as lines 295-302
do: the target's `Res` error if set; else nil if the target terminated
at the last pipeline step in phase `end`; else the target is absent.
`runErr0 ≠ Paused` reflects that the monitor loop (line 209) and
`waitSteps` (line 326) both filter the `Paused` sentinel out of the
accumulated run error. -/
theorem c3_result_computation (steps : List StepInfo) (targets : List Target)
    (states : List (String × TargetState)) (getVars : String → StepsVars)
    (marshal : ResumeStateStruct → RawMessage) (ctxDone pauseSig : Bool)
    (runErr0 : Option RErr) (srs : List RawMessage) (arg : RawMessage)
    (out : RunTailOut)
    (hnd : (states.map Prod.fst).Nodup)
    (hnp : runErr0 ≠ some RErr.paused)
    (h : runTail steps targets states getVars marshal ctxDone pauseSig runErr0 srs arg =
      .ok out)
    (hok : out.runErr = none ∨ out.runErr = some RErr.paused) :
    ∃ m, out.results = some m ∧ ∀ id,
      alookup m id = (alookup states id).bind (resValue steps.length) := by
  rcases runTailCore_ok_shape _ _ _ _ _ _ _ _ _ _ h with
    ⟨e, he, hout⟩ | ⟨hnone, states1, ok1, nif1, hex, hres, hdisj⟩
  · subst hout
    rcases hok with h0 | h0
    · cases h0
    · cases h0
      cases ctxDone with
      | true =>
        rw [if_pos rfl] at he
        cases he
      | false =>
        rw [if_neg (by decide)] at he
        exact absurd he hnp
  · have hnd1 : (states1.map Prod.fst).Nodup := by
      rw [examineLoop_keys steps getVars targets states true 0 states1 ok1 nif1 hex]
      exact hnd
    refine ⟨computeResults steps.length states1, hres, fun id => ?_⟩
    rw [alookup_computeResults steps.length states1 id hnd1]
    rcases examineLoop_core steps getVars targets states true 0 states1 ok1 nif1 hex id
      with ⟨h1, h2⟩ | ⟨a, b, h1, h2, hr, hs, hp⟩
    · rw [h1, h2]
    · rw [h1, h2]
      simp only [Option.some_bind]
      unfold resValue
      rw [hr, hs, hp]

/-- Witness for C3: the same clean run as the C2 witness, checked
against the per-target rule. -/
theorem c3_result_computation_witness :
    (((([("T1", ({ tgt := some ⟨"T1"⟩, CurStep := 0, CurPhase := .end_ } : TargetState))]).map Prod.fst).Nodup) ∧
      (none : Option RErr) ≠ some RErr.paused ∧
      runTail [⟨"s", none⟩] [⟨"T1"⟩]
        [("T1", { tgt := some ⟨"T1"⟩, CurStep := 0, CurPhase := .end_ })]
        (fun _ => []) (fun _ => "") false false none [] "" =
        .ok ⟨"", some [("T1", none)], none⟩ ∧
      ((⟨"", some [("T1", none)], none⟩ : RunTailOut).runErr = none ∨
        (⟨"", some [("T1", none)], none⟩ : RunTailOut).runErr = some RErr.paused)) ∧
    (∃ m, (⟨"", some [("T1", none)], none⟩ : RunTailOut).results = some m ∧ ∀ id,
      alookup m id =
        (alookup [("T1", ({ tgt := some ⟨"T1"⟩, CurStep := 0, CurPhase := .end_ } : TargetState))] id).bind
          (resValue ([(⟨"s", none⟩ : StepInfo)]).length)) :=
  ⟨⟨by decide, by decide, by rfl, Or.inl rfl⟩,
    c3_result_computation [⟨"s", none⟩] [⟨"T1"⟩]
      [("T1", { tgt := some ⟨"T1"⟩, CurStep := 0, CurPhase := .end_ })]
      (fun _ => []) (fun _ => "") false false none [] ""
      _ (by decide) (by decide) (by rfl) (Or.inl rfl)⟩

/-- Outcome of `ss.WaitResults(shutdownCtx)` for a started step
(test_runner.go line 320): `timeout` when the shutdown deadline
expires first (non-nil `err`), else completion carrying the step's
result error and its last resume state. -/
inductive WaitOutcome
  | timeout
  | done (resErr : Option RErr) (resumeState : RawMessage)
deriving DecidableEq, Repr

/-- What `waitSteps` reads from one `stepState`: label, whether the
step was ever started, its pristine init resume state, and the wait
outcome. -/
structure StepWait where
  label : String
  started : Bool
  initResumeState : RawMessage
  outcome : WaitOutcome
deriving DecidableEq, Repr

/-- Effects `waitSteps` applies to one step on this pass: the error
handed to `SetError` (first-write-wins downstream), and whether
`ForceStop` was invoked. -/
structure StepWaitEffect where
  label : String
  errSet : Option RErr
  forcedStop : Bool
deriving DecidableEq, Repr

/-- The per-step loop of `waitSteps` (test_runner.go lines 315-330),
threading `resultErr` left to right: an unstarted step contributes its
`initResumeState` and is otherwise untouched (lines 316-319); a started
step that times out is labeled `NeverReturned` with its own label,
force-stopped, recorded in `stepsNeverReturned`, and contributes the
zero-value resume state (lines 320-325, 329); a completed step may
set `resultErr` (first non-nil, non-Paused wins, lines 326-328) and
contributes its final resume state. -/
def waitStepsLoop : List StepWait → Option RErr →
    List RawMessage × List StepWaitEffect × List String × Option RErr
  | [], rerr => ([], [], [], rerr)
  | ss :: rest, rerr =>
    if ss.started = false then
      let t := waitStepsLoop rest rerr
      (ss.initResumeState :: t.1, ⟨ss.label, none, false⟩ :: t.2.1, t.2.2.1, t.2.2.2)
    else
      match ss.outcome with
      | .timeout =>
        let t := waitStepsLoop rest rerr
        ("" :: t.1, ⟨ss.label, some (.neverReturned [ss.label]), true⟩ :: t.2.1,
          ss.label :: t.2.2.1, t.2.2.2)
      | .done e _rs =>
        let rerr1 := if rerr = none ∧ e ≠ none ∧ e ≠ some RErr.paused then e else rerr
        let t := waitStepsLoop rest rerr1
        (_rs :: t.1, ⟨ss.label, none, false⟩ :: t.2.1, t.2.2.1, t.2.2.2)

/-- The labels `waitSteps` collects in `stepsNeverReturned`: started
steps whose wait timed out, in order. -/
def stepsNeverReturnedOf (steps : List StepWait) : List String :=
  steps.filterMap (fun ss =>
    if ss.started = true ∧ ss.outcome = .timeout then some ss.label else none)

/-- `waitSteps` (test_runner.go lines 306-336): run the per-step loop
with `resultErr = nil`, then, when some steps never returned and no
completed step contributed a fatal first, make the run error a
`NeverReturned` carrying exactly those labels (lines 332-334). -/
def waitStepsGo (steps : List StepWait) :
    List RawMessage × List StepWaitEffect × Option RErr :=
  let t := waitStepsLoop steps none
  (t.1, t.2.1,
    if t.2.2.1 ≠ [] ∧ t.2.2.2 = none then
      some (.neverReturned t.2.2.1)
    else t.2.2.2)

/-- Resume-state blob one step contributes to the collected list. -/
def waitRSEntry (ss : StepWait) : RawMessage :=
  if ss.started = false then ss.initResumeState
  else
    match ss.outcome with
    | .timeout => ""
    | .done _ rs => rs

/-- Effect applied to one step by the wait loop. -/
def waitEffEntry (ss : StepWait) : StepWaitEffect :=
  if ss.started = true ∧ ss.outcome = .timeout then
    ⟨ss.label, some (.neverReturned [ss.label]), true⟩
  else ⟨ss.label, none, false⟩

/-- `resultErr` after the loop, as a fold. -/
def waitErrFold : List StepWait → Option RErr → Option RErr
  | [], rerr => rerr
  | ss :: rest, rerr =>
    if ss.started = false then waitErrFold rest rerr
    else
      match ss.outcome with
      | .timeout => waitErrFold rest rerr
      | .done e _ =>
        waitErrFold rest
          (if rerr = none ∧ e ≠ none ∧ e ≠ some RErr.paused then e else rerr)

theorem waitStepsLoop_eq (steps : List StepWait) (rerr : Option RErr) :
    waitStepsLoop steps rerr =
      (steps.map waitRSEntry, steps.map waitEffEntry, stepsNeverReturnedOf steps,
        waitErrFold steps rerr) := by
  induction steps generalizing rerr with
  | nil => rfl
  | cons ss rest ih =>
    cases hst : ss.started with
    | false =>
      simp only [waitStepsLoop, waitErrFold, hst, if_pos rfl, ih]
      simp [waitRSEntry, waitEffEntry, stepsNeverReturnedOf, hst]
    | true =>
      cases hout : ss.outcome with
      | timeout =>
        simp only [waitStepsLoop, waitErrFold, hst, hout, ih]
        simp [waitRSEntry, waitEffEntry, stepsNeverReturnedOf, hst, hout]
      | done e rs =>
        simp only [waitStepsLoop, waitErrFold, hst, hout, ih]
        simp [waitRSEntry, waitEffEntry, stepsNeverReturnedOf, hst, hout]

theorem waitErrFold_none (steps : List StepWait)
    (hdone : ∀ ss ∈ steps, ss.started = true → ∀ e rs, ss.outcome = .done e rs →
      e = none ∨ e = some RErr.paused) :
    waitErrFold steps none = none := by
  induction steps with
  | nil => rfl
  | cons ss rest ih =>
    have hrest : ∀ ss ∈ rest, ss.started = true → ∀ e rs, ss.outcome = .done e rs →
        e = none ∨ e = some RErr.paused :=
      fun s hs => hdone s (List.mem_cons_of_mem _ hs)
    cases hst : ss.started with
    | false => simp only [waitErrFold, hst, if_pos rfl]; exact ih hrest
    | true =>
      cases hout : ss.outcome with
      | timeout =>
        simp only [waitErrFold, hst, hout]
        exact ih hrest
      | done e rs =>
        have he := hdone ss (List.mem_cons_self _ _) hst e rs hout
        simp only [waitErrFold, hst, hout]
        rcases he with he | he <;> subst he <;> simpa using ih hrest

theorem listIdx_map {β γ : Type} (f : β → γ) (l : List β) (i : Nat) :
    listIdx (l.map f) i = (listIdx l i).map f := by
  induction l generalizing i with
  | nil => rfl
  | cons b rest ih =>
    cases i with
    | zero => rfl
    | succ n => exact ih n

/-- CLAIM C8: after the monitor loop, provided no completed step
contributed a fatal (non-nil, non-Paused) result error: every step
never started contributes its `initResumeState` verbatim at its
position of the collected resume states; every started step whose wait
timed out gets `SetError` called with a `NeverReturned` error naming
exactly its own label and is force-stopped; and the error `waitSteps`
returns is a `NeverReturned` listing exactly the labels of the
non-returning steps, in order — or nil when every started step
returned. -/
theorem c8_wait_steps (steps : List StepWait)
    (hdone : ∀ ss ∈ steps, ss.started = true → ∀ e rs, ss.outcome = .done e rs →
      e = none ∨ e = some RErr.paused) :
    (∀ i ss, listIdx steps i = some ss → ss.started = false →
      listIdx (waitStepsGo steps).1 i = some ss.initResumeState) ∧
    (∀ i ss, listIdx steps i = some ss → ss.started = true → ss.outcome = .timeout →
      listIdx (waitStepsGo steps).2.1 i =
        some ⟨ss.label, some (.neverReturned [ss.label]), true⟩) ∧
    ((waitStepsGo steps).2.2 =
      if stepsNeverReturnedOf steps = [] then none
      else some (.neverReturned (stepsNeverReturnedOf steps))) := by
  have hfold := waitErrFold_none steps hdone
  refine ⟨fun i ss hidx hst => ?_, fun i ss hidx hst hout => ?_, ?_⟩
  · show listIdx (waitStepsLoop steps none).1 i = some ss.initResumeState
    rw [waitStepsLoop_eq, listIdx_map, hidx]
    simp [waitRSEntry, hst]
  · show listIdx (waitStepsLoop steps none).2.1 i = _
    rw [waitStepsLoop_eq, listIdx_map, hidx]
    simp [waitEffEntry, hst, hout]
  · show (if (waitStepsLoop steps none).2.2.1 ≠ [] ∧ (waitStepsLoop steps none).2.2.2 = none
        then some (.neverReturned (waitStepsLoop steps none).2.2.1)
        else (waitStepsLoop steps none).2.2.2) = _
    rw [waitStepsLoop_eq]
    by_cases hn : stepsNeverReturnedOf steps = []
    · simp [hn, hfold]
    · simp [hn, hfold]

/-- Witness for C8: an unstarted step, a started step that times out,
and a started step that completes cleanly. -/
theorem c8_wait_steps_witness :
    (∀ ss ∈ [(⟨"s1", false, "init1", .done none ""⟩ : StepWait),
        ⟨"s2", true, "init2", .timeout⟩, ⟨"s3", true, "init3", .done none "rs3"⟩],
      ss.started = true → ∀ e rs, ss.outcome = .done e rs →
        e = none ∨ e = some RErr.paused) ∧
    ((∀ i ss, listIdx [(⟨"s1", false, "init1", .done none ""⟩ : StepWait),
          ⟨"s2", true, "init2", .timeout⟩, ⟨"s3", true, "init3", .done none "rs3"⟩] i =
          some ss →
        ss.started = false →
        listIdx (waitStepsGo [(⟨"s1", false, "init1", .done none ""⟩ : StepWait),
            ⟨"s2", true, "init2", .timeout⟩, ⟨"s3", true, "init3", .done none "rs3"⟩]).1 i =
          some ss.initResumeState) ∧
      (∀ i ss, listIdx [(⟨"s1", false, "init1", .done none ""⟩ : StepWait),
          ⟨"s2", true, "init2", .timeout⟩, ⟨"s3", true, "init3", .done none "rs3"⟩] i =
          some ss →
        ss.started = true → ss.outcome = .timeout →
        listIdx (waitStepsGo [(⟨"s1", false, "init1", .done none ""⟩ : StepWait),
            ⟨"s2", true, "init2", .timeout⟩, ⟨"s3", true, "init3", .done none "rs3"⟩]).2.1 i =
          some ⟨ss.label, some (.neverReturned [ss.label]), true⟩) ∧
      ((waitStepsGo [(⟨"s1", false, "init1", .done none ""⟩ : StepWait),
          ⟨"s2", true, "init2", .timeout⟩, ⟨"s3", true, "init3", .done none "rs3"⟩]).2.2 =
        if stepsNeverReturnedOf [(⟨"s1", false, "init1", .done none ""⟩ : StepWait),
            ⟨"s2", true, "init2", .timeout⟩, ⟨"s3", true, "init3", .done none "rs3"⟩] = []
        then none
        else some (.neverReturned (stepsNeverReturnedOf
          [(⟨"s1", false, "init1", .done none ""⟩ : StepWait),
            ⟨"s2", true, "init2", .timeout⟩,
            ⟨"s3", true, "init3", .done none "rs3"⟩])))) :=
  ⟨by
    intro ss hss hstart e rs hout
    fin_cases hss
    · cases hstart
    · cases hout
    · cases hout
      exact Or.inl rfl,
    c8_wait_steps [(⟨"s1", false, "init1", .done none ""⟩ : StepWait),
      ⟨"s2", true, "init2", .timeout⟩, ⟨"s3", true, "init3", .done none "rs3"⟩]
      (by
        intro ss hss hstart e rs hout
        fin_cases hss
        · cases hstart
        · cases hout
        · cases hout
          exact Or.inl rfl)⟩
